import Mathlib

/-!
Verification development for the reload subsystem of the SublimerLog editor
plugin (`src/reloader/reloader.py`).

The Python module is shallowly embedded as pure Lean functions over an explicit
state.  The process-wide module cache (`sys.modules`) is an association list
from module identifiers to opaque module handles (`Nat`).  The logging sink is
modelled as an append-only list of messages (one constructor per `log(...)`
call site of the source).  Calls to host facilities (`sublime_plugin` hooks,
`importlib`, `sublime.packages_path`, `os.path.isdir`, `os.walk`,
`importlib.invalidate_caches`) are recorded in an append-only event trace and
their outcomes are given by an environment `Env`; a hook that the environment
makes fail models a raising host call.  Python statements guarded by
`try/except` in the source are embedded as a branch on the outcome;
an operation the source leaves unguarded propagates its failure as an
`Except.error` result.
-/

/-- Python value appearing in the `plugins_to_reload` configuration list;
entries may be strings or arbitrary other values (the source checks
`isinstance(entry, str)` and truthiness). -/
inductive PyVal
  | pyStr (s : String)
  | pyInt (n : Int)
  | pyNone
deriving DecidableEq, Repr

/-- Python truthiness of a configuration entry (`not entry`). -/
def PyVal.truthy : PyVal → Bool
  | .pyStr s => decide (s ≠ "")
  | .pyInt n => decide (n ≠ 0)
  | .pyNone => false

/-- Whether a configuration entry is a string (`isinstance(entry, str)`). -/
def PyVal.isString : PyVal → Bool
  | .pyStr _ => true
  | _ => false

/-- One file reported by `os.walk` under a package folder: the path of its
directory relative to the Sublime packages root, as path segments, plus the
file name. -/
structure WalkFile where
  dirParts : List String
  fname : String
deriving DecidableEq, Repr

/-- One message passed to the logging sink; one constructor per `log(...)`
call site of `src/reloader/reloader.py`. -/
inductive Msg
  | calledUnloadModule (target : String)
  | unloadModuleFailed (target : String)
  | unloadedModule (name : String)
  | failedUnload (name : String)
  | failedInvalidate
  | gatherFailed (target : String)
  | foundModules (target : String) (nAll nPlugin : Nat)
  | failedRemove (name : String)
  | importing (name : String)
  | importFailed (name : String)
  | loadingPlugin (name : String)
  | loadModuleFailedFallback (name : String)
  | reloadPluginFallbackFailed (name : String)
  | reloadPluginFailed (name : String)
  | errorLoadingPlugin (name : String)
  | skippingInvalid (entry : PyVal)
  | foundPackageFolder (path : String)
  | tryingFile (file : WalkFile) (module : String)
  | errorReloading (module : String)
  | triedFiles (n : Nat)
  | noPackageFolder (entry : String)
  | noPackagesPath
  | keyMustBeList
  | settingsReloadFailed
deriving DecidableEq, Repr

/-- One host/runtime call performed by the reloader, with its outcome. -/
inductive Ev
  | unloadHook (handle : Nat) (ok : Bool)
  | loadHook (handle : Nat) (ok : Bool)
  | namedReload (name : String) (ok : Bool)
  | importEv (name : String) (ok : Bool)
  | invalidateEv (ok : Bool)
  | pathsQuery (ok : Bool)
  | isDirEv (path : String)
  | walkEv (path : String)
deriving DecidableEq, Repr

/-- Value of the `plugins_to_reload` key as returned by `settings.get`. -/
inductive SettingsVal
  | list (entries : List PyVal)
  | nonList
deriving DecidableEq, Repr

/-- Observable state threaded through the embedded reloader: the module cache
(`sys.modules`), the log stream and the host-call trace. -/
structure RState where
  sysModules : List (String × Nat)
  logs : List Msg
  trace : List Ev
deriving DecidableEq, Repr

/-- Append a message to the log stream. -/
def addLog (s : RState) (m : Msg) : RState :=
  { s with logs := s.logs ++ [m] }

/-- Append a host-call event to the trace. -/
def addEv (s : RState) (e : Ev) : RState :=
  { s with trace := s.trace ++ [e] }

/-- Behaviour of the host runtime and the filesystem during one run.  A `Bool`
result `false` (or an `Except.error`) models the corresponding call raising. -/
structure Env where
  unloadModule : Nat → Bool
  loadModule : Nat → Bool
  reloadByName : String → Bool
  importMod : String → Option Nat
  packagesPath : Except Unit String
  isDir : String → Except Unit Bool
  walk : String → Except Unit (List WalkFile)
  invalidateOk : Bool
  settings : Except Unit SettingsVal

/-- Lookup of `sys.modules[key]` (`sys.modules.get(key)`). -/
def lookupMod : List (String × Nat) → String → Option Nat
  | [], _ => none
  | p :: rest, key => if p.1 = key then some p.2 else lookupMod rest key

/-- Deletion `del sys.modules[key]`. -/
def eraseMod : List (String × Nat) → String → List (String × Nat)
  | [], _ => []
  | p :: rest, key =>
      if p.1 = key then eraseMod rest key else p :: eraseMod rest key

/-- Assignment `sys.modules[key] = v` (performed by a successful import). -/
def insertMod (m : List (String × Nat)) (key : String) (v : Nat) :
    List (String × Nat) :=
  if (lookupMod m key).isSome then
    m.map (fun p => if p.1 = key then (key, v) else p)
  else m ++ [(key, v)]

/-- Keys of the module cache (`list(sys.modules.keys())`). -/
def modKeys (m : List (String × Nat)) : List String := m.map Prod.fst

/-- Python `pre.isPrefixOf s` on code points, i.e. `s.startswith(pre)`. -/
def pyStartsWith (s pre : String) : Bool := pre.toList.isPrefixOf s.toList

/-- Python `s.endswith(suf)` on code points. -/
def pyEndsWith (s suf : String) : Bool := suf.toList.isSuffixOf s.toList

/-- Number of occurrences of `.` in an identifier (`n.count(".")`). -/
def dotCount (s : String) : Nat := s.toList.count '.'

/-- Lexicographic code-point comparison of character lists (Python string `<`). -/
def charsLt : List Char → List Char → Bool
  | [], [] => false
  | [], _ :: _ => true
  | _ :: _, [] => false
  | a :: as, b :: bs =>
      if a.val < b.val then true
      else if b.val < a.val then false
      else charsLt as bs

/-- Python string `<`. -/
def strLt (a b : String) : Bool := charsLt a.toList b.toList

/-- Python string `<=` (total order derived from `strLt`). -/
def strLe (a b : String) : Bool := !(strLt b a)

/-- Python `<=` on lists of strings (lexicographic), used for the
`key=lambda n: n.split(".")` sort of the loader. -/
def listStrLe : List String → List String → Bool
  | [], _ => true
  | _ :: _, [] => false
  | a :: as, b :: bs =>
      if strLt a b then true
      else if strLt b a then false
      else listStrLe as bs

/-- Stable insertion of `x` into a list according to a boolean preorder;
`x` goes in front of the first element it may precede. -/
def binsert (le : α → α → Bool) (x : α) : List α → List α
  | [] => [x]
  | y :: ys => if le x y then x :: y :: ys else y :: binsert le x ys

/-- Stable insertion sort; for a total transitive `le` it produces the same
list as Python's stable `list.sort` / `sorted`. -/
def bsort (le : α → α → Bool) : List α → List α
  | [] => []
  | x :: xs => binsert le x (bsort le xs)

/-- Descending comparison on identifier depth, the key of
`candidates.sort(key=lambda n: n.count("."), reverse=True)`. -/
def depthGe (a b : String) : Bool := decide (dotCount b ≤ dotCount a)

/-- Sort key comparison of `sorted(all_modules, key=lambda n: n.split("."))`:
Python `split(".")` on code points. -/
def splitDotsAux : List Char → List Char → List String
  | [], acc => [String.mk acc.reverse]
  | c :: rest, acc =>
      if c = '.' then String.mk acc.reverse :: splitDotsAux rest []
      else splitDotsAux rest (c :: acc)

/-- Python `s.split(".")`. -/
def splitDots (s : String) : List String := splitDotsAux s.toList []

/-- Comparison used to sort the modules to import. -/
def splitKeyLe (a b : String) : Bool := listStrLe (splitDots a) (splitDots b)

/-- Set-style insertion used for the Python `set.add` (duplicates collapse). -/
def sAdd (l : List String) (x : String) : List String :=
  if x ∈ l then l else l ++ [x]

/-- Membership test `name == target or name.startswith(target + ".")` used to
select the cache entries belonging to a target. -/
def matchesTarget (target name : String) : Bool :=
  decide (name = target) || pyStartsWith name (target ++ ".")

/-- Step 1 of `unload_plugin` (lines 48-59): if the top-level module is in the
cache, call `sublime_plugin.unload_module` on it; a raising hook is logged. -/
def unloadStep1 (e : Env) (target : String) (quiet : Bool) (s : RState) :
    RState :=
  match lookupMod s.sysModules target with
  | none => s
  | some h =>
      let s := addEv s (.unloadHook h (e.unloadModule h))
      if e.unloadModule h then
        if quiet then s else addLog s (.calledUnloadModule target)
      else addLog s (.unloadModuleFailed target)

/-- Removal loop shared by `unload_plugin` (lines 71-79) and `reload_plugin`
(lines 180-187): delete each candidate from `sys.modules` if still present,
logging each removal.  The `except` branches of both loops are unreachable in
the embedding because the deletion is guarded by the membership test. -/
def removeStep (quiet : Bool) (n : String) (s : RState) : RState :=
  if (lookupMod s.sysModules n).isSome then
    let s := { s with sysModules := eraseMod s.sysModules n }
    if quiet then s else addLog s (.unloadedModule n)
  else s

/-- Iteration of `removeStep` over the sorted candidate list. -/
def removeLoop (quiet : Bool) : List String → RState → RState
  | [], s => s
  | n :: rest, s => removeLoop quiet rest (removeStep quiet n s)

/-- Step 3 of `unload_plugin` / end of the removal phase of `reload_plugin`:
`importlib.invalidate_caches()`, with a raising call caught and logged. -/
def invalidateCaches (e : Env) (s : RState) : RState :=
  let s := addEv s (.invalidateEv e.invalidateOk)
  if e.invalidateOk then s else addLog s .failedInvalidate

/-- Removal order of `unload_plugin` (lines 61-69): cache keys matching the
target, sorted by dot count descending (children first, stable). -/
def removalOrder (m : List (String × Nat)) (target : String) : List String :=
  bsort depthGe ((modKeys m).filter (matchesTarget target))

/-- Embedding of `unload_plugin` (lines 38-85).  Every fallible operation of
the source is wrapped in `try/except`, so the embedded function is total. -/
def unload_plugin (e : Env) (target : String) (quiet : Bool) (s : RState) :
    RState :=
  let s := unloadStep1 e target quiet s
  let s := removeLoop quiet (removalOrder s.sysModules target) s
  invalidateCaches e s

/-- Suffix stripping `Path(rel).with_suffix("")` applied to a walked file name
(only called on names ending in `.py`; a file named exactly `.py` has an empty
suffix in `pathlib` and is left unchanged). -/
def stripPy (fname : String) : String :=
  if fname = ".py" then fname else String.mk (fname.toList.dropLast.dropLast.dropLast)

/-- Path segments of a walked file after extension stripping
(`Path(rel).with_suffix("").parts`). -/
def deriveParts (f : WalkFile) : List String := f.dirParts ++ [stripPy f.fname]

/-- Module identifier derived from a walked file: segments joined with `.`,
taken verbatim (no normalization of hyphens/underscores). -/
def deriveName (f : WalkFile) : String := String.intercalate "." (deriveParts f)

/-- Path join `os.path.join(a, b)`. -/
def pathJoin (a b : String) : String := a ++ "/" ++ b

/-- Scan loop of `_gather_package_modules` (lines 116-129): for every `.py`
file derive its identifier, add it to `all_modules`, and to `plugin_modules`
when its relative path has exactly two segments. -/
def scanLoop : List WalkFile → List String × List String →
    List String × List String
  | [], acc => acc
  | f :: rest, (allM, plugM) =>
      if pyEndsWith f.fname ".py" then
        let name := deriveName f
        let allM := sAdd allM name
        let plugM :=
          if (deriveParts f).length = 2 then sAdd plugM name else plugM
        scanLoop rest (allM, plugM)
      else scanLoop rest (allM, plugM)

/-- Live-cache pass of `_gather_package_modules` (lines 96-105): seed
`all_modules` with the package itself and every cache key equal to it or
starting with it plus a dot. -/
def cacheSeed (m : List (String × Nat)) (package : String) : List String :=
  (modKeys m).foldl
    (fun acc name =>
      if decide (name = package) || pyStartsWith name (package ++ ".") then
        sAdd acc name
      else acc) (sAdd [] package)

/-- Embedding of `_gather_package_modules` (lines 88-134).  The call to
`sublime.packages_path()` is guarded by `try/except` (a raise degrades to the
cache-only pass), but `os.path.isdir` and `os.walk` are not guarded here, so
their failures propagate to the caller. -/
def gather_package_modules (e : Env) (package : String) (s : RState) :
    Except Unit (List String × List String) × RState :=
  let allM := cacheSeed s.sysModules package
  match e.packagesPath with
  | .error _ =>
      (.ok (allM, sAdd [] package), addEv s (.pathsQuery false))
  | .ok p =>
      let s := addEv s (.pathsQuery true)
      if p = "" then (.ok (allM, sAdd [] package), s)
      else
        let folder := pathJoin p package
        let s := addEv s (.isDirEv folder)
        match e.isDir folder with
        | .error _ => (.error (), s)
        | .ok false => (.ok (allM, sAdd [] package), s)
        | .ok true =>
            let s := addEv s (.walkEv folder)
            match e.walk folder with
            | .error _ => (.error (), s)
            | .ok files =>
                let (allM, plugM) := scanLoop files (allM, [])
                (.ok (allM, sAdd plugM package), s)

/-- Step 2 of `reload_plugin` (lines 160-173): ask the host to unload each
top-level plugin module still present in the cache; raising hooks are logged. -/
def pluginUnloadLoop (e : Env) (quiet : Bool) : List String → RState → RState
  | [], s => s
  | p :: rest, s =>
      let s :=
        match lookupMod s.sysModules p with
        | none => s
        | some h =>
            let s := addEv s (.unloadHook h (e.unloadModule h))
            if e.unloadModule h then
              if quiet then s else addLog s (.calledUnloadModule p)
            else addLog s (.unloadModuleFailed p)
      pluginUnloadLoop e quiet rest s

/-- Removal order of the removal phase of `reload_plugin` (lines 176-179):
cache keys belonging to `all_modules`, sorted by dot count descending. -/
def removalOrderR (m : List (String × Nat)) (allM : List String) :
    List String :=
  bsort depthGe ((modKeys m).filter (fun n => decide (n ∈ allM)))

/-- Import loop of `reload_plugin` (lines 198-207): attempt
`importlib.import_module` for each identifier; a cached module import succeeds
without re-execution, a fresh import succeeds when the environment provides a
handle; failures are logged and skipped. -/
def importLoop (e : Env) (quiet : Bool) :
    List String → Bool → RState → Bool × RState
  | [], acc, s => (acc, s)
  | n :: rest, acc, s =>
      let s := if quiet then s else addLog s (.importing n)
      match lookupMod s.sysModules n with
      | some _ =>
          importLoop e quiet rest true (addEv s (.importEv n true))
      | none =>
          match e.importMod n with
          | some h =>
              let s := addEv s (.importEv n true)
              importLoop e quiet rest true
                { s with sysModules := insertMod s.sysModules n h }
          | none =>
              let s := addLog (addEv s (.importEv n false)) (.importFailed n)
              importLoop e quiet rest acc s

/-- Plugin load loop of `reload_plugin` (lines 210-244): for each top-level
plugin module, use `sublime_plugin.load_module` when the module is cached,
falling back to `sublime_plugin.reload_plugin` when the hook raises or the
module is absent; every failure is caught. -/
def pluginLoadLoop (e : Env) (quiet : Bool) :
    List String → Bool → RState → Bool × RState
  | [], acc, s => (acc, s)
  | p :: rest, acc, s =>
      match lookupMod s.sysModules p with
      | some h =>
          let s := if quiet then s else addLog s (.loadingPlugin p)
          let s := addEv s (.loadHook h (e.loadModule h))
          if e.loadModule h then pluginLoadLoop e quiet rest true s
          else
            let s := if quiet then s else addLog s (.loadModuleFailedFallback p)
            let s := addEv s (.namedReload p (e.reloadByName p))
            if e.reloadByName p then pluginLoadLoop e quiet rest true s
            else
              pluginLoadLoop e quiet rest acc
                (addLog s (.reloadPluginFallbackFailed p))
      | none =>
          let s := addEv s (.namedReload p (e.reloadByName p))
          if e.reloadByName p then pluginLoadLoop e quiet rest true s
          else
            pluginLoadLoop e quiet rest acc (addLog s (.reloadPluginFailed p))

/-- Embedding of `reload_plugin` (lines 137-246).  The gather phase is guarded
by `try/except` (its failure yields `False`), and every other fallible
operation is individually guarded, so the embedded function is total. -/
def reload_plugin (e : Env) (target : String) (quiet : Bool) (s : RState) :
    Bool × RState :=
  match gather_package_modules e target s with
  | (.error _, s) => (false, addLog s (.gatherFailed target))
  | (.ok (allM, plugM), s) =>
      let s :=
        if quiet then s
        else addLog s (.foundModules target allM.length plugM.length)
      let s := pluginUnloadLoop e quiet (bsort strLe plugM) s
      let s := removeLoop quiet (removalOrderR s.sysModules allM) s
      let s := invalidateCaches e s
      let (loaded, s) := importLoop e quiet (bsort splitKeyLe allM) false s
      pluginLoadLoop e quiet (bsort strLe plugM) loaded s

/-- File loop of the fallback of `reload_plugins` (lines 276-300): for every
`.py` file under the package folder, derive its identifier, attempt a
plain import (its failure is caught locally) and then the host named-reload hook
(its failure is caught and logged). -/
def fallbackFileLoop (e : Env) (quiet : Bool) :
    List WalkFile → Nat → RState → Nat × RState
  | [], tried, s => (tried, s)
  | f :: rest, tried, s =>
      if pyEndsWith f.fname ".py" then
        let tried := tried + 1
        let name := String.intercalate "." (f.dirParts ++ [stripPy f.fname])
        let s := if quiet then s else addLog s (.tryingFile f name)
        let s :=
          match lookupMod s.sysModules name with
          | some _ => addEv s (.importEv name true)
          | none =>
              match e.importMod name with
              | some h =>
                  let s := addEv s (.importEv name true)
                  { s with sysModules := insertMod s.sysModules name h }
              | none => addEv s (.importEv name false)
        let s := addEv s (.namedReload name (e.reloadByName name))
        let s :=
          if e.reloadByName name then s
          else if quiet then s else addLog s (.errorReloading name)
        fallbackFileLoop e quiet rest tried s
      else fallbackFileLoop e quiet rest tried s

/-- File-walk fallback of `reload_plugins` (lines 263-309), run when
`reload_plugin` reported failure.  `sublime.packages_path()` is guarded by
`try/except`, but `os.path.isdir` and `os.walk` are called unguarded here, so
a raising filesystem stand-in propagates out of this block. -/
def fallbackFor (e : Env) (entry : String) (quiet : Bool) (s : RState) :
    Except Unit Unit × RState :=
  match e.packagesPath with
  | .error _ =>
      let s := addEv s (.pathsQuery false)
      (.ok (), if quiet then s else addLog s .noPackagesPath)
  | .ok p =>
      let s := addEv s (.pathsQuery true)
      if p = "" then (.ok (), if quiet then s else addLog s .noPackagesPath)
      else
        let folder := pathJoin p entry
        let s := addEv s (.isDirEv folder)
        match e.isDir folder with
        | .error _ => (.error (), s)
        | .ok dirOk =>
            if dirOk then
              let s := if quiet then s else addLog s (.foundPackageFolder folder)
              let s := addEv s (.walkEv folder)
              match e.walk folder with
              | .error _ => (.error (), s)
              | .ok files =>
                  let (tried, s) := fallbackFileLoop e quiet files 0 s
                  if 0 < tried then
                    (.ok (), if quiet then s else addLog s (.triedFiles tried))
                  else
                    (.ok (),
                      if quiet then s else addLog s (.noPackageFolder entry))
            else
              (.ok (), if quiet then s else addLog s (.noPackageFolder entry))

/-- Processing of one valid entry of `reload_plugins` (lines 260-309):
unload, reload, and the file-walk fallback exactly when the reload failed. -/
def processEntry (e : Env) (entry : String) (quiet : Bool) (s : RState) :
    Except Unit Unit × RState :=
  let s := unload_plugin e entry quiet s
  match reload_plugin e entry quiet s with
  | (true, s) => (.ok (), s)
  | (false, s) => fallbackFor e entry quiet s

/-- Embedding of `reload_plugins` (lines 249-309): skip non-string or empty
entries (logging them unless quiet) and process each remaining entry in list
order.  An uncaught exception from the fallback of one entry propagates and
aborts the remaining entries, as in the source. -/
def reload_plugins (e : Env) :
    List PyVal → Bool → RState → Except Unit Unit × RState
  | [], _, s => (.ok (), s)
  | v :: rest, quiet, s =>
      match v with
      | .pyStr entry =>
          if entry = "" then
            reload_plugins e rest quiet
              (if quiet then s else addLog s (.skippingInvalid v))
          else
            match processEntry e entry quiet s with
            | (.ok _, s) => reload_plugins e rest quiet s
            | (.error u, s) => (.error u, s)
      | _ =>
          reload_plugins e rest quiet
            (if quiet then s else addLog s (.skippingInvalid v))

/-- Embedding of `reload_from_settings` (lines 312-336): read the configured
list and reload it quietly; the whole body is guarded by `try/except`, so the
embedded function is total even when the inner batch raises. -/
def reload_from_settings (e : Env) (s : RState) : RState :=
  match e.settings with
  | .error _ => addLog s .settingsReloadFailed
  | .ok .nonList => addLog s .keyMustBeList
  | .ok (.list []) => s
  | .ok (.list entries) =>
      match reload_plugins e entries true s with
      | (.ok _, s) => s
      | (.error _, s) => addLog s .settingsReloadFailed

/-! Basic state lemmas -/

@[simp] theorem addLog_sysModules (s : RState) (m : Msg) :
    (addLog s m).sysModules = s.sysModules := rfl

@[simp] theorem addLog_trace (s : RState) (m : Msg) :
    (addLog s m).trace = s.trace := rfl

@[simp] theorem addLog_logs (s : RState) (m : Msg) :
    (addLog s m).logs = s.logs ++ [m] := rfl

@[simp] theorem addEv_sysModules (s : RState) (e : Ev) :
    (addEv s e).sysModules = s.sysModules := rfl

@[simp] theorem addEv_logs (s : RState) (e : Ev) :
    (addEv s e).logs = s.logs := rfl

@[simp] theorem addEv_trace (s : RState) (e : Ev) :
    (addEv s e).trace = s.trace ++ [e] := rfl

/-! Lemmas about the stable insertion sort -/

theorem mem_binsert (le : α → α → Bool) (x y : α) (l : List α) :
    y ∈ binsert le x l ↔ y = x ∨ y ∈ l := by
  induction l with
  | nil => simp [binsert]
  | cons z zs ih =>
      by_cases h : le x z = true
      · simp [binsert, h, List.mem_cons]
      · simp [binsert, h, List.mem_cons, ih]
        tauto

theorem pairwise_binsert (le : α → α → Bool)
    (htrans : ∀ a b c, le a b = true → le b c = true → le a c = true)
    (htotal : ∀ a b, le a b = true ∨ le b a = true)
    (x : α) (l : List α) (h : l.Pairwise (fun a b => le a b = true)) :
    (binsert le x l).Pairwise (fun a b => le a b = true) := by
  induction l with
  | nil => simp [binsert]
  | cons z zs ih =>
      rcases List.pairwise_cons.mp h with ⟨hz, hzs⟩
      by_cases hxz : le x z = true
      · simp only [binsert, hxz, if_pos]
        refine List.pairwise_cons.mpr ⟨?_, h⟩
        intro b hb
        rcases List.mem_cons.mp hb with rfl | hb
        · exact hxz
        · exact htrans x z b hxz (hz b hb)
      · simp only [binsert, hxz, if_neg, Bool.not_eq_true]
        refine List.pairwise_cons.mpr ⟨?_, ih hzs⟩
        intro b hb
        rcases (mem_binsert le x b zs).mp hb with rfl | hb
        · rcases htotal b z with hc | hc
          · exact absurd hc hxz
          · exact hc
        · exact hz b hb

theorem pairwise_bsort (le : α → α → Bool)
    (htrans : ∀ a b c, le a b = true → le b c = true → le a c = true)
    (htotal : ∀ a b, le a b = true ∨ le b a = true) (l : List α) :
    (bsort le l).Pairwise (fun a b => le a b = true) := by
  induction l with
  | nil => simp [bsort]
  | cons x xs ih => exact pairwise_binsert le htrans htotal x (bsort le xs) ih

theorem mem_bsort (le : α → α → Bool) (y : α) (l : List α) :
    y ∈ bsort le l ↔ y ∈ l := by
  induction l with
  | nil => simp [bsort]
  | cons x xs ih => simp [bsort, mem_binsert, ih, List.mem_cons]

theorem depthGe_trans (a b c : String) (h1 : depthGe a b = true)
    (h2 : depthGe b c = true) : depthGe a c = true := by
  simp only [depthGe, decide_eq_true_eq] at *
  exact le_trans h2 h1

theorem depthGe_total (a b : String) :
    depthGe a b = true ∨ depthGe b a = true := by
  simp only [depthGe, decide_eq_true_eq]
  exact Nat.le_total (dotCount b) (dotCount a)

theorem pairwise_depthGe_bsort (l : List String) :
    (bsort depthGe l).Pairwise (fun a b => depthGe a b = true) :=
  pairwise_bsort depthGe depthGe_trans depthGe_total l

/-! Lemmas about the module-cache operations -/

theorem eraseMod_eq_filter (m : List (String × Nat)) (k : String) :
    eraseMod m k = m.filter (fun p => decide (p.1 ≠ k)) := by
  induction m with
  | nil => rfl
  | cons p rest ih =>
      by_cases h : p.1 = k <;> simp [eraseMod, h, ih, List.filter_cons]

theorem lookupMod_eq_none (m : List (String × Nat)) (k : String) :
    lookupMod m k = none ↔ k ∉ modKeys m := by
  induction m with
  | nil => simp [lookupMod, modKeys]
  | cons p rest ih =>
      by_cases h : p.1 = k <;>
        simp [lookupMod, modKeys, h, ih, eq_comm (a := k)]

theorem lookupMod_filter_notin (m : List (String × Nat)) (L : List String)
    (k : String) (hk : k ∉ L) :
    lookupMod (m.filter (fun p => decide (p.1 ∉ L))) k = lookupMod m k := by
  induction m with
  | nil => rfl
  | cons p rest ih =>
      by_cases h : p.1 = k
      · subst h
        simp [List.filter_cons, hk, lookupMod]
      · by_cases h2 : p.1 ∈ L <;>
          simpa [List.filter_cons, h, h2, lookupMod] using ih

theorem decide_notin_cons (a n : String) (rest : List String) :
    decide (a ∉ n :: rest) = (decide (a ∉ rest) && decide (a ≠ n)) := by
  by_cases h1 : a = n <;> by_cases h2 : a ∈ rest <;> simp [h1, h2]

theorem removeStep_sysModules (q : Bool) (n : String) (s : RState) :
    (removeStep q n s).sysModules
      = s.sysModules.filter (fun p => decide (p.1 ≠ n)) := by
  unfold removeStep
  by_cases h : (lookupMod s.sysModules n).isSome
  · simp only [h, if_pos]
    split <;> simp [eraseMod_eq_filter]
  · simp only [h, if_neg, Bool.not_eq_true]
    rw [eq_comm, List.filter_eq_self]
    intro p hp
    rw [Option.not_isSome_iff_eq_none, lookupMod_eq_none] at h
    simp only [decide_eq_true_eq]
    intro hc
    exact h (hc ▸ List.mem_map_of_mem Prod.fst hp)

theorem removeLoop_sysModules (q : Bool) (l : List String) :
    ∀ s : RState, (removeLoop q l s).sysModules
      = s.sysModules.filter (fun p => decide (p.1 ∉ l)) := by
  induction l with
  | nil => intro s; simp [removeLoop]
  | cons n rest ih =>
      intro s
      rw [removeLoop, ih, removeStep_sysModules, List.filter_filter]
      apply List.filter_congr
      intro p _
      rw [decide_notin_cons]

theorem unloadStep1_sysModules (e : Env) (t : String) (q : Bool) (s : RState) :
    (unloadStep1 e t q s).sysModules = s.sysModules := by
  unfold unloadStep1
  split
  · rfl
  · split <;> (try split) <;> simp

theorem invalidateCaches_sysModules (e : Env) (s : RState) :
    (invalidateCaches e s).sysModules = s.sysModules := by
  unfold invalidateCaches
  split <;> simp

theorem unload_plugin_sysModules (e : Env) (t : String) (q : Bool)
    (s : RState) :
    (unload_plugin e t q s).sysModules
      = s.sysModules.filter
          (fun p => decide (p.1 ∉ removalOrder s.sysModules t)) := by
  unfold unload_plugin
  rw [invalidateCaches_sysModules, removeLoop_sysModules,
    unloadStep1_sysModules]

theorem mem_removalOrder (m : List (String × Nat)) (t k : String) :
    k ∈ removalOrder m t ↔ k ∈ modKeys m ∧ matchesTarget t k = true := by
  unfold removalOrder
  rw [mem_bsort, List.mem_filter]

theorem unload_plugin_lookup_matching (e : Env) (t : String) (q : Bool)
    (s : RState) (k : String) (h : matchesTarget t k = true) :
    lookupMod (unload_plugin e t q s).sysModules k = none := by
  rw [unload_plugin_sysModules, lookupMod_eq_none]
  intro hk
  rcases List.mem_map.mp hk with ⟨p, hp, hpk⟩
  rcases List.mem_filter.mp hp with ⟨hpm, hpd⟩
  simp only [decide_eq_true_eq] at hpd
  exact hpd (hpk ▸ (mem_removalOrder s.sysModules t k).mpr
    ⟨hpk ▸ List.mem_map_of_mem Prod.fst hpm, h⟩)

/-! Concrete fixtures used by witnesses and counterexamples -/

/-- Empty starting state. -/
def stateNil : RState := ⟨[], [], []⟩

/-- Cache holding a small package tree plus an unrelated module. -/
def statePkg : RState :=
  ⟨[("pkg", 0), ("pkg.a", 1), ("pkg.a.b", 2), ("other", 3)], [], []⟩

/-- Host behaviour where every hook succeeds, every import succeeds, and no
packages path is resolvable (cache-only operation). -/
def envBenign : Env :=
  ⟨fun _ => true, fun _ => true, fun _ => true, fun _ => some 7,
    .error (), fun _ => .ok false, fun _ => .ok [], true, .error ()⟩

/-- C2: the removal sequences of `unload_plugin` and of the removal phase of
`reload_plugin` never delete an identifier before every cache entry with a
strictly greater segment count that is derived from it (prefixed by it plus a
dot) has been deleted; on the cache `pkg, pkg.a, pkg.a.b` the order is
`pkg.a.b, pkg.a, pkg`. -/
theorem c2_depth_ordering (m : List (String × Nat)) (target : String)
    (allM : List String) :
    (removalOrder m target).Pairwise
      (fun x y => ¬(dotCount x < dotCount y ∧ pyStartsWith y (x ++ ".") = true)) ∧
    (removalOrderR m allM).Pairwise
      (fun x y => ¬(dotCount x < dotCount y ∧ pyStartsWith y (x ++ ".") = true)) ∧
    removalOrder [("pkg", 0), ("pkg.a", 1), ("pkg.a.b", 2)] "pkg"
      = ["pkg.a.b", "pkg.a", "pkg"] := by
  have key : ∀ x y : String, depthGe x y = true →
      ¬(dotCount x < dotCount y ∧ pyStartsWith y (x ++ ".") = true) := by
    intro x y h hc
    simp only [depthGe, decide_eq_true_eq] at h
    exact absurd hc.1 (Nat.not_lt.mpr h)
  exact ⟨(pairwise_depthGe_bsort _).imp (fun h => key _ _ h),
    (pairwise_depthGe_bsort _).imp (fun h => key _ _ h), by decide⟩

/-- C7: unloading is idempotent in its error behaviour: after
`unload_plugin target` no cache entry matching the target remains, and a
second `unload_plugin target` consists of the cache-invalidation step alone
(the teardown hook is skipped and the candidate list is empty), so it
performs no deletion and leaves the cache unchanged. -/
theorem c7_unload_idempotent (e : Env) (target : String) (q q' : Bool)
    (s : RState) :
    (unload_plugin e target q s).sysModules.filter
        (fun p => matchesTarget target p.1) = [] ∧
    unload_plugin e target q' (unload_plugin e target q s)
      = invalidateCaches e (unload_plugin e target q s) ∧
    (unload_plugin e target q' (unload_plugin e target q s)).sysModules
      = (unload_plugin e target q s).sysModules := by
  set s1 := unload_plugin e target q s with hs1
  have hmatch : ∀ k, matchesTarget target k = true →
      lookupMod s1.sysModules k = none :=
    fun k hk => unload_plugin_lookup_matching e target q s k hk
  have hfilter : s1.sysModules.filter (fun p => matchesTarget target p.1) = [] := by
    rw [List.filter_eq_nil_iff]
    intro p hp hmp
    have h1 := hmatch p.1 hmp
    rw [lookupMod_eq_none] at h1
    exact h1 (List.mem_map_of_mem Prod.fst hp)
  have hcand : removalOrder s1.sysModules target = [] := by
    unfold removalOrder
    have h2 : (modKeys s1.sysModules).filter (matchesTarget target) = [] := by
      rw [List.filter_eq_nil_iff]
      intro k hk hmk
      have h3 := hmatch k hmk
      rw [lookupMod_eq_none] at h3
      exact h3 hk
    rw [h2]
    rfl
  have hstep1 : unloadStep1 e target q' s1 = s1 := by
    unfold unloadStep1
    rw [hmatch target (by simp [matchesTarget])]
  have hsecond : unload_plugin e target q' s1 = invalidateCaches e s1 := by
    show invalidateCaches e (removeLoop q'
      (removalOrder (unloadStep1 e target q' s1).sysModules target)
      (unloadStep1 e target q' s1)) = invalidateCaches e s1
    rw [hstep1, hcand]
    rfl
  exact ⟨hfilter, hsecond, by rw [hsecond, invalidateCaches_sysModules]⟩

/-- C9: `unload_plugin` modifies only the target's subtree of the module
cache: the sublist of entries whose key neither equals the target nor starts
with the target plus a dot is untouched, and the lookup of any such key
returns the same module handle afterwards. -/
theorem c9_unload_frame (e : Env) (target : String) (q : Bool) (s : RState) :
    (unload_plugin e target q s).sysModules.filter
        (fun p => !matchesTarget target p.1)
      = s.sysModules.filter (fun p => !matchesTarget target p.1) ∧
    ∀ k, matchesTarget target k = false →
      lookupMod (unload_plugin e target q s).sysModules k
        = lookupMod s.sysModules k := by
  constructor
  · rw [unload_plugin_sysModules, List.filter_filter]
    apply List.filter_congr
    intro p _
    by_cases hm : matchesTarget target p.1 = true
    · simp [hm]
    · have hno : p.1 ∉ removalOrder s.sysModules target := by
        rw [mem_removalOrder]
        rintro ⟨_, hmt⟩
        exact hm hmt
      simp [hm, hno]
  · intro k hk
    rw [unload_plugin_sysModules]
    apply lookupMod_filter_notin
    rw [mem_removalOrder]
    rintro ⟨_, hmt⟩
    rw [hk] at hmt
    cases hmt

/-- Witness for C9 at a concrete cache: the unrelated entry `other` keeps its
handle across `unload_plugin "pkg"`. -/
theorem c9_unload_frame_witness :
    matchesTarget "pkg" "other" = false ∧
    lookupMod (unload_plugin envBenign "pkg" false statePkg).sysModules "other"
      = lookupMod statePkg.sysModules "other" :=
  ⟨by decide,
    (c9_unload_frame envBenign "pkg" false statePkg).2 "other" (by decide)⟩

/-! Scanner classification (C5) -/

theorem mem_sAdd (l : List String) (x y : String) :
    y ∈ sAdd l x ↔ y ∈ l ∨ y = x := by
  unfold sAdd
  by_cases h : x ∈ l
  · simp only [h, if_pos]
    constructor
    · exact Or.inl
    · rintro (hy | rfl)
      · exact hy
      · exact h
  · simp [h]

theorem scanLoop_plugin_mem (files : List WalkFile) :
    ∀ (allM plugM : List String) (name : String),
      name ∈ (scanLoop files (allM, plugM)).2 ↔
        name ∈ plugM ∨ ∃ f ∈ files, pyEndsWith f.fname ".py" = true ∧
          (deriveParts f).length = 2 ∧ name = deriveName f := by
  induction files with
  | nil => intro allM plugM name; simp [scanLoop]
  | cons f rest ih =>
      intro allM plugM name
      by_cases hpy : pyEndsWith f.fname ".py" = true
      · by_cases h2 : (deriveParts f).length = 2
        · simp only [scanLoop, hpy, h2, if_true, ite_true]
          rw [ih, mem_sAdd]
          simp only [List.exists_mem_cons_iff, hpy, h2, true_and]
          tauto
        · simp only [scanLoop, hpy, h2, if_true, ite_true, if_false, ite_false]
          rw [ih]
          simp only [List.exists_mem_cons_iff, h2, false_and, and_false,
            false_or]
      · simp only [scanLoop, hpy, Bool.false_eq_true, if_false, ite_false]
        rw [ih]
        simp [List.exists_mem_cons_iff, hpy]

/-- C5: a filesystem-derived identifier is classified as a top-level plugin
module by the scanner if and only if its relative path has exactly two
segments or it equals the package name. -/
theorem c5_top_level_classification (e : Env) (package : String) (s : RState)
    (p : String) (files : List WalkFile)
    (hp : e.packagesPath = .ok p) (hne : ¬p = "")
    (hd : e.isDir (pathJoin p package) = .ok true)
    (hw : e.walk (pathJoin p package) = .ok files) :
    ∃ allM plugM s',
      gather_package_modules e package s = (.ok (allM, plugM), s') ∧
      ∀ name, (name ∈ plugM ↔ (name = package ∨
        ∃ f ∈ files, pyEndsWith f.fname ".py" = true ∧
          (deriveParts f).length = 2 ∧ name = deriveName f)) := by
  unfold gather_package_modules
  simp only [hp, hd, hw, if_neg hne]
  refine ⟨_, _, _, rfl, ?_⟩
  intro name
  rw [mem_sAdd, scanLoop_plugin_mem]
  simp only [List.not_mem_nil, false_or]
  exact or_comm

/-- Filesystem of the C5 example: `pkg/foo.py` and `pkg/sub/bar.py`. -/
def filesScan : List WalkFile := [⟨["pkg"], "foo.py"⟩, ⟨["pkg", "sub"], "bar.py"⟩]

/-- Host environment exposing `filesScan` under a resolvable packages path. -/
def envScan : Env :=
  ⟨fun _ => true, fun _ => true, fun _ => true, fun _ => some 7,
    .ok "P", fun _ => .ok true, fun _ => .ok filesScan, true, .error ()⟩

/-- Witness for C5 on the spec's example tree: `pkg.foo` and `pkg` are
classified as top-level plugin modules and `pkg.sub.bar` is not. -/
theorem c5_top_level_classification_witness :
    ∃ allM plugM s',
      gather_package_modules envScan "pkg" stateNil = (.ok (allM, plugM), s') ∧
      "pkg.foo" ∈ plugM ∧ "pkg" ∈ plugM ∧ "pkg.sub.bar" ∉ plugM := by
  obtain ⟨allM, plugM, s', hEq, hMem⟩ :=
    c5_top_level_classification envScan "pkg" stateNil "P" filesScan rfl
      (by decide) rfl rfl
  refine ⟨allM, plugM, s', hEq, ?_, ?_, ?_⟩
  · exact (hMem "pkg.foo").mpr (by decide)
  · exact (hMem "pkg").mpr (Or.inl rfl)
  · intro hc
    exact absurd ((hMem "pkg.sub.bar").mp hc) (by decide)

/-! Segment-literal naming (C8) -/

/-- Host environment exposing a single file `pkg/my-module.py`, with imports
failing and the named-reload hook succeeding. -/
def envHyphen : Env :=
  ⟨fun _ => true, fun _ => true, fun _ => true, fun _ => none,
    .ok "P", fun _ => .ok true,
    fun _ => .ok [⟨["pkg"], "my-module.py"⟩], true, .error ()⟩

/-- C8: identifiers are derived from path segments verbatim: `pkg/my-module.py`
yields `pkg.my-module` (hyphen preserved), the scanner puts that identifier
into `all_modules` (and `plugin_modules`), and the file-walk fallback of
`reload_plugins` attempts the host named-reload hook under exactly that
identifier. -/
theorem c8_segment_literal_naming :
    deriveName ⟨["pkg"], "my-module.py"⟩ = "pkg.my-module" ∧
    (∃ allM plugM s',
      gather_package_modules envHyphen "pkg" stateNil
        = (.ok (allM, plugM), s') ∧
      "pkg.my-module" ∈ allM ∧ "pkg.my-module" ∈ plugM) ∧
    Ev.namedReload "pkg.my-module" true
      ∈ (fallbackFor envHyphen "pkg" false stateNil).2.trace := by
  refine ⟨by decide, ⟨_, _, _, rfl, by decide, by decide⟩, by decide⟩

/-! Exception propagation (C1) -/

/-- Host environment in which every import, registration hook and named-reload
hook fails, and the filesystem walk raises (a raising stand-in for `os.walk`)
while the packages path and the directory check succeed. -/
def envRaisingWalk : Env :=
  ⟨fun _ => true, fun _ => false, fun _ => false, fun _ => none,
    .ok "P", fun _ => .ok true, fun _ => .error (), true, .error ()⟩

/-- Counterexample to C1 as stated: with a raising stand-in for the filesystem
walk, `reload_plugins` does not return normally — the exception raised by the
unguarded `os.walk` of the fallback (source lines 273-276) propagates to the
caller. -/
theorem c1_counterexample_walk_raises :
    (reload_plugins envRaisingWalk [PyVal.pyStr "X"] false stateNil).1
      = .error () := rfl

theorem fallbackFor_ok (e : Env)
    (hD : ∀ pa, ∃ b, e.isDir pa = .ok b)
    (hW : ∀ pa, ∃ fs, e.walk pa = .ok fs)
    (entry : String) (q : Bool) (s : RState) :
    (fallbackFor e entry q s).1 = .ok () := by
  unfold fallbackFor
  cases hpp : e.packagesPath with
  | error u => rfl
  | ok p =>
      by_cases hpe : p = ""
      · simp [hpe]
      · simp only [if_neg hpe]
        obtain ⟨b, hb⟩ := hD (pathJoin p entry)
        simp only [hb]
        cases b with
        | false => simp
        | true =>
            obtain ⟨fs, hf⟩ := hW (pathJoin p entry)
            simp only [hf, if_true]
            split <;> first
              | rfl
              | (split <;> rfl)

theorem processEntry_ok (e : Env)
    (hD : ∀ pa, ∃ b, e.isDir pa = .ok b)
    (hW : ∀ pa, ∃ fs, e.walk pa = .ok fs)
    (entry : String) (q : Bool) (s : RState) :
    (processEntry e entry q s).1 = .ok () := by
  unfold processEntry
  dsimp only
  split
  · rfl
  · exact fallbackFor_ok e hD hW entry q _

/-- C1 amended: `unload_plugin`, `reload_plugin` and `reload_from_settings`
never raise for any behaviour of the host hooks and the filesystem — in the
embedding they are total functions, because the source guards every fallible
operation they perform — and `reload_plugins` returns normally for every hook
behaviour provided the filesystem directory check and walk do not raise; a
raising stand-in for either propagates out of `reload_plugins`
(`c1_counterexample_walk_raises`). -/
theorem c1_no_exception_amended (e : Env) (entries : List PyVal) (q : Bool)
    (s : RState)
    (hD : ∀ pa, ∃ b, e.isDir pa = .ok b)
    (hW : ∀ pa, ∃ fs, e.walk pa = .ok fs) :
    (reload_plugins e entries q s).1 = .ok () := by
  induction entries generalizing s with
  | nil => rfl
  | cons v rest ih =>
      cases v with
      | pyStr entry =>
          by_cases he : entry = ""
          · simp only [reload_plugins, he, if_true]
            exact ih _
          · simp only [reload_plugins, if_neg he]
            rcases hpe : processEntry e entry q s with ⟨r, s2⟩
            have hr : r = .ok () := by
              have := processEntry_ok e hD hW entry q s
              rw [hpe] at this
              exact this
            subst hr
            exact ih s2
      | pyInt n => exact ih _
      | pyNone => exact ih _

/-- Witness for the amended C1 with a benign filesystem: the batch returns
normally. -/
theorem c1_no_exception_amended_witness :
    (∀ pa, ∃ b, envBenign.isDir pa = .ok b) ∧
    (∀ pa, ∃ fs, envBenign.walk pa = .ok fs) ∧
    (reload_plugins envBenign [PyVal.pyStr "X"] false stateNil).1 = .ok () :=
  ⟨fun _ => ⟨false, rfl⟩, fun _ => ⟨[], rfl⟩,
    c1_no_exception_amended envBenign [PyVal.pyStr "X"] false stateNil
      (fun _ => ⟨false, rfl⟩) (fun _ => ⟨[], rfl⟩)⟩

/-! Fallback control flow (C3) and batch resilience (C6) -/

/-- Host environment where gathering succeeds cache-only but every import,
registration hook and named-reload hook fails, so `reload_plugin` reports
failure. -/
def envFail : Env :=
  ⟨fun _ => true, fun _ => false, fun _ => false, fun _ => none,
    .error (), fun _ => .ok false, fun _ => .ok [], true, .error ()⟩

/-- C3: for a valid entry, `reload_plugins` runs the file-walk fallback
(`fallbackFor`) if and only if `reload_plugin` returned false: on a true
result the entry's processing ends in exactly the state `reload_plugin`
produced, and on a false result it continues as `fallbackFor` from that
state. -/
theorem c3_fallback_iff_failure (e : Env) (entry : String) (q : Bool)
    (s : RState) :
    (∀ s2, reload_plugin e entry q (unload_plugin e entry q s) = (true, s2) →
      processEntry e entry q s = (.ok (), s2)) ∧
    (∀ s2, reload_plugin e entry q (unload_plugin e entry q s) = (false, s2) →
      processEntry e entry q s = fallbackFor e entry q s2) ∧
    (∀ rest, ¬entry = "" →
      reload_plugins e (.pyStr entry :: rest) q s
        = (match processEntry e entry q s with
           | (.ok _, s2) => reload_plugins e rest q s2
           | (.error u, s2) => (.error u, s2))) := by
  refine ⟨?_, ?_, ?_⟩
  · intro s2 h
    unfold processEntry
    dsimp only
    rw [h]
  · intro s2 h
    unfold processEntry
    dsimp only
    rw [h]
  · intro rest he
    simp only [reload_plugins, if_neg he]

/-- Witness for C3: with every step succeeding the fallback is skipped, and
with every step failing the entry's processing is the fallback run. -/
theorem c3_fallback_iff_failure_witness :
    reload_plugin envBenign "X" false (unload_plugin envBenign "X" false stateNil)
      = (true,
        (reload_plugin envBenign "X" false
          (unload_plugin envBenign "X" false stateNil)).2) ∧
    processEntry envBenign "X" false stateNil
      = (.ok (),
        (reload_plugin envBenign "X" false
          (unload_plugin envBenign "X" false stateNil)).2) ∧
    reload_plugin envFail "X" false (unload_plugin envFail "X" false stateNil)
      = (false,
        (reload_plugin envFail "X" false
          (unload_plugin envFail "X" false stateNil)).2) ∧
    processEntry envFail "X" false stateNil
      = fallbackFor envFail "X" false
          (reload_plugin envFail "X" false
            (unload_plugin envFail "X" false stateNil)).2 :=
  ⟨rfl,
    (c3_fallback_iff_failure envBenign "X" false stateNil).1 _ rfl,
    rfl,
    (c3_fallback_iff_failure envFail "X" false stateNil).2.1 _ rfl⟩

/-- C6: `reload_plugins` skips a non-string or empty entry, appending only the
skip log message (when not quiet), and continues with the remaining entries;
a valid entry is processed by unload/reload (with fallback).  On the spec's
batch `["Good", "", 123, "AlsoGood"]` both invalid entries are logged as
skipped and both valid entries are still imported. -/
theorem c6_batch_resilience (e : Env) (q : Bool) (s : RState) (v : PyVal)
    (rest : List PyVal) :
    (v.isString = false ∨ v.truthy = false →
      reload_plugins e (v :: rest) q s
        = reload_plugins e rest q
            (if q then s else addLog s (.skippingInvalid v))) ∧
    (∀ entry : String, ¬entry = "" →
      reload_plugins e (.pyStr entry :: rest) q s
        = (match processEntry e entry q s with
           | (.ok _, s2) => reload_plugins e rest q s2
           | (.error u, s2) => (.error u, s2))) ∧
    (Msg.skippingInvalid (.pyStr "")
        ∈ (reload_plugins envBenign
            [.pyStr "Good", .pyStr "", .pyInt 123, .pyStr "AlsoGood"]
            false stateNil).2.logs ∧
      Msg.skippingInvalid (.pyInt 123)
        ∈ (reload_plugins envBenign
            [.pyStr "Good", .pyStr "", .pyInt 123, .pyStr "AlsoGood"]
            false stateNil).2.logs ∧
      Ev.importEv "Good" true
        ∈ (reload_plugins envBenign
            [.pyStr "Good", .pyStr "", .pyInt 123, .pyStr "AlsoGood"]
            false stateNil).2.trace ∧
      Ev.importEv "AlsoGood" true
        ∈ (reload_plugins envBenign
            [.pyStr "Good", .pyStr "", .pyInt 123, .pyStr "AlsoGood"]
            false stateNil).2.trace) := by
  refine ⟨?_, ?_, by decide, by decide, by decide, by decide⟩
  · intro h
    cases v with
    | pyStr str =>
        rcases h with h | h
        · cases h
        · have he : str = "" := by
            simpa [PyVal.truthy] using h
          subst he
          simp [reload_plugins]
    | pyInt n => rfl
    | pyNone => rfl
  · intro entry he
    simp only [reload_plugins, if_neg he]

/-- Witness for C6: a non-string entry is skipped with only the skip log
appended. -/
theorem c6_batch_resilience_witness :
    (PyVal.pyInt 123).isString = false ∧
    reload_plugins envBenign [PyVal.pyInt 123] false stateNil
      = reload_plugins envBenign [] false
          (if false then stateNil
            else addLog stateNil (Msg.skippingInvalid (PyVal.pyInt 123))) :=
  ⟨rfl,
    (c6_batch_resilience envBenign false stateNil (PyVal.pyInt 123) []).1
      (Or.inl rfl)⟩

/-! Success accounting (C4) -/

/-- Host calls that set the `loaded_any` flag of `reload_plugin` when they
succeed: module imports, registration hooks and named-reload hooks. -/
def successEv : Ev → Bool
  | .importEv _ ok => ok
  | .loadHook _ ok => ok
  | .namedReload _ ok => ok
  | _ => false

theorem gather_trace (e : Env) (pkg : String) (s : RState) :
    ∃ d, (gather_package_modules e pkg s).2.trace = s.trace ++ d ∧
      d.any successEv = false := by
  unfold gather_package_modules
  cases hpp : e.packagesPath with
  | error u => exact ⟨[.pathsQuery false], by simp [addEv], rfl⟩
  | ok p =>
      by_cases hp : p = ""
      · refine ⟨[.pathsQuery true], ?_, rfl⟩
        simp [hp, addEv]
      · simp only [if_neg hp]
        cases hd : e.isDir (pathJoin p pkg) with
        | error u =>
            exact ⟨[.pathsQuery true, .isDirEv (pathJoin p pkg)],
              by simp [addEv], rfl⟩
        | ok b =>
            cases b with
            | false =>
                exact ⟨[.pathsQuery true, .isDirEv (pathJoin p pkg)],
                  by simp [addEv], rfl⟩
            | true =>
                cases hw : e.walk (pathJoin p pkg) with
                | error u =>
                    exact ⟨[.pathsQuery true, .isDirEv (pathJoin p pkg),
                      .walkEv (pathJoin p pkg)], by simp [addEv], rfl⟩
                | ok fs =>
                    exact ⟨[.pathsQuery true, .isDirEv (pathJoin p pkg),
                      .walkEv (pathJoin p pkg)], by simp [addEv], rfl⟩

theorem pluginUnloadLoop_trace (e : Env) (q : Bool) (l : List String) :
    ∀ s : RState, ∃ d, (pluginUnloadLoop e q l s).trace = s.trace ++ d ∧
      d.any successEv = false := by
  induction l with
  | nil => intro s; exact ⟨[], by simp [pluginUnloadLoop], rfl⟩
  | cons p rest ih =>
      intro s
      dsimp only [pluginUnloadLoop]
      cases hlk : lookupMod s.sysModules p with
      | none => exact ih s
      | some h =>
          cases hu : e.unloadModule h with
          | true =>
              cases q with
              | true =>
                  obtain ⟨d, hd, ha⟩ := ih (addEv s (.unloadHook h true))
                  exact ⟨.unloadHook h true :: d,
                    by
                      simp only [addEv, addLog] at hd
                      simp [hu, addEv, addLog, hd],
                    by simp [ha, successEv]⟩
              | false =>
                  obtain ⟨d, hd, ha⟩ := ih
                    (addLog (addEv s (.unloadHook h true)) (.calledUnloadModule p))
                  exact ⟨.unloadHook h true :: d,
                    by
                      simp only [addEv, addLog] at hd
                      simp [hu, addEv, addLog, hd],
                    by simp [ha, successEv]⟩
          | false =>
              obtain ⟨d, hd, ha⟩ := ih
                (addLog (addEv s (.unloadHook h false)) (.unloadModuleFailed p))
              exact ⟨.unloadHook h false :: d,
                by
                  simp only [addEv, addLog] at hd
                  simp [hu, addEv, addLog, hd],
                by simp [ha, successEv]⟩

theorem removeStep_trace (q : Bool) (n : String) (s : RState) :
    (removeStep q n s).trace = s.trace := by
  unfold removeStep
  split
  · split <;> rfl
  · rfl

theorem removeLoop_trace (q : Bool) (l : List String) :
    ∀ s : RState, (removeLoop q l s).trace = s.trace := by
  induction l with
  | nil => intro s; rfl
  | cons n rest ih =>
      intro s
      rw [removeLoop, ih, removeStep_trace]

theorem invalidateCaches_trace (e : Env) (s : RState) :
    (invalidateCaches e s).trace = s.trace ++ [.invalidateEv e.invalidateOk] := by
  unfold invalidateCaches
  split <;> simp [addEv]

theorem importLoop_spec (e : Env) (q : Bool) (l : List String) :
    ∀ (acc : Bool) (s : RState), ∃ d,
      (importLoop e q l acc s).2.trace = s.trace ++ d ∧
      (importLoop e q l acc s).1 = (acc || d.any successEv) := by
  induction l with
  | nil => intro acc s; exact ⟨[], by simp [importLoop], by simp [importLoop]⟩
  | cons n rest ih =>
      intro acc s
      dsimp only [importLoop]
      cases hlk : lookupMod (if q then s else addLog s (.importing n)).sysModules n with
      | some h =>
          obtain ⟨d, hd, ha⟩ :=
            ih true (addEv (if q then s else addLog s (.importing n)) (.importEv n true))
          refine ⟨.importEv n true :: d, ?_, ?_⟩
          · rw [hd]
            cases q <;> simp [addEv, addLog]
          · rw [ha]
            simp [successEv]
      | none =>
          cases him : e.importMod n with
          | some h =>
              obtain ⟨d, hd, ha⟩ := ih true
                { addEv (if q then s else addLog s (.importing n)) (.importEv n true) with
                    sysModules := insertMod
                      (addEv (if q then s else addLog s (.importing n))
                        (.importEv n true)).sysModules n h }
              refine ⟨.importEv n true :: d, ?_, ?_⟩
              · rw [hd]
                cases q <;> simp [addEv, addLog]
              · rw [ha]
                simp [successEv]
          | none =>
              obtain ⟨d, hd, ha⟩ := ih acc
                (addLog (addEv (if q then s else addLog s (.importing n))
                  (.importEv n false)) (.importFailed n))
              refine ⟨.importEv n false :: d, ?_, ?_⟩
              · rw [hd]
                cases q <;> simp [addEv, addLog]
              · rw [ha]
                simp [successEv]

theorem iteLog_trace (b : Bool) (s : RState) (m : Msg) :
    (if b then s else addLog s m).trace = s.trace := by
  cases b <;> simp

theorem pluginLoadLoop_spec (e : Env) (q : Bool) (l : List String) :
    ∀ (acc : Bool) (s : RState), ∃ d,
      (pluginLoadLoop e q l acc s).2.trace = s.trace ++ d ∧
      (pluginLoadLoop e q l acc s).1 = (acc || d.any successEv) := by
  induction l with
  | nil =>
      intro acc s
      exact ⟨[], by simp [pluginLoadLoop], by simp [pluginLoadLoop]⟩
  | cons p rest ih =>
      intro acc s
      dsimp only [pluginLoadLoop]
      cases hlk : lookupMod s.sysModules p with
      | some h =>
          cases hu : e.loadModule h with
          | true =>
              obtain ⟨d, hd, hf⟩ := ih true
                (addEv (if q then s else addLog s (.loadingPlugin p))
                  (.loadHook h true))
              refine ⟨.loadHook h true :: d, ?_, ?_⟩
              · simp [hu, hd, iteLog_trace]
              · simp [hu, hf, successEv]
          | false =>
              cases hr : e.reloadByName p with
              | true =>
                  obtain ⟨d, hd, hf⟩ := ih true
                    (addEv (if q
                        then (addEv (if q then s else addLog s (.loadingPlugin p))
                          (.loadHook h false))
                        else addLog
                          (addEv (if q then s else addLog s (.loadingPlugin p))
                            (.loadHook h false))
                          (.loadModuleFailedFallback p))
                      (.namedReload p true))
                  refine ⟨[.loadHook h false, .namedReload p true] ++ d, ?_, ?_⟩
                  · simp [hu, hr, hd, iteLog_trace]
                  · simp [hu, hr, hf, successEv]
              | false =>
                  obtain ⟨d, hd, hf⟩ := ih acc
                    (addLog (addEv (if q
                        then (addEv (if q then s else addLog s (.loadingPlugin p))
                          (.loadHook h false))
                        else addLog
                          (addEv (if q then s else addLog s (.loadingPlugin p))
                            (.loadHook h false))
                          (.loadModuleFailedFallback p))
                      (.namedReload p false))
                      (.reloadPluginFallbackFailed p))
                  refine ⟨[.loadHook h false, .namedReload p false] ++ d, ?_, ?_⟩
                  · simp [hu, hr, hd, iteLog_trace]
                  · simp [hu, hr, hf, successEv]
      | none =>
          cases hr : e.reloadByName p with
          | true =>
              obtain ⟨d, hd, hf⟩ := ih true (addEv s (.namedReload p true))
              refine ⟨.namedReload p true :: d, ?_, ?_⟩
              · simp [hr, hd]
              · simp [hr, hf, successEv]
          | false =>
              obtain ⟨d, hd, hf⟩ := ih acc
                (addLog (addEv s (.namedReload p false)) (.reloadPluginFailed p))
              refine ⟨.namedReload p false :: d, ?_, ?_⟩
              · simp [hr, hd]
              · simp [hr, hf, successEv]

/-- C4: `reload_plugin` returns true if and only if at least one of its
steps succeeded: an import of a gathered module, a host registration hook
(`load_module`), or a host named-reload hook on a top-level plugin module —
i.e. exactly when the run's new host-call trace contains a successful
event of the import/load/named-reload kind. -/
theorem c4_success_flag (e : Env) (target : String) (q : Bool) (s : RState) :
    (reload_plugin e target q s).1
      = ((reload_plugin e target q s).2.trace.drop s.trace.length).any
          successEv := by
  obtain ⟨d1, hg, ha1⟩ := gather_trace e target s
  unfold reload_plugin
  rcases hgv : gather_package_modules e target s with ⟨res, s1⟩
  rw [hgv] at hg
  cases res with
  | error u =>
      dsimp only at hg ⊢
      simp [hg, List.drop_left, ha1]
  | ok pr =>
      rcases pr with ⟨allM, plugM⟩
      dsimp only at hg ⊢
      set s2 := (if q then s1
        else addLog s1 (.foundModules target allM.length plugM.length)) with hs2
      set s3 := pluginUnloadLoop e q (bsort strLe plugM) s2 with hs3
      set s4 := removeLoop q (removalOrderR s3.sysModules allM) s3 with hs4
      set s5 := invalidateCaches e s4 with hs5
      obtain ⟨d2, h2, ha2⟩ := pluginUnloadLoop_trace e q (bsort strLe plugM) s2
      rw [← hs3] at h2
      obtain ⟨d6, h6, hf6⟩ := importLoop_spec e q (bsort splitKeyLe allM) false s5
      rcases him : importLoop e q (bsort splitKeyLe allM) false s5 with ⟨b6, s6⟩
      rw [him] at h6 hf6
      dsimp only at h6 hf6
      obtain ⟨d7, h7, hf7⟩ := pluginLoadLoop_spec e q (bsort strLe plugM) b6 s6
      dsimp only
      rw [hf7, h7, h6]
      have h5 : s5.trace = s4.trace ++ [.invalidateEv e.invalidateOk] := by
        rw [hs5, invalidateCaches_trace]
      have h4 : s4.trace = s3.trace := by
        rw [hs4, removeLoop_trace]
      have h2s : s2.trace = s1.trace := by
        rw [hs2, iteLog_trace]
      rw [h5, h4, h2, h2s, hg]
      simp only [List.append_assoc, List.drop_left, List.any_append,
        List.singleton_append, List.any_cons, List.any_nil]
      rw [ha1, ha2, hf6]
      simp [successEv]

/-! Quiet-flag gating (C10) -/

/-- Messages whose `log(...)` call site is not guarded by `if not quiet` in
the source, i.e. messages emitted regardless of the quiet flag. -/
def msgKept : Msg → Bool
  | .unloadModuleFailed _ => true
  | .failedUnload _ => true
  | .failedInvalidate => true
  | .gatherFailed _ => true
  | .failedRemove _ => true
  | .importFailed _ => true
  | .reloadPluginFallbackFailed _ => true
  | .reloadPluginFailed _ => true
  | .errorLoadingPlugin _ => true
  | .keyMustBeList => true
  | .settingsReloadFailed => true
  | _ => false

/-- Log delta actually emitted for a given quiet flag, out of the full delta
`d` of the non-quiet run. -/
def logsSplit (d : List Msg) (q : Bool) : List Msg :=
  if q then d.filter msgKept else d

theorem logsSplit_append (L : List Msg) (d1 d2 : List Msg) (q : Bool) :
    L ++ logsSplit d1 q ++ logsSplit d2 q = L ++ logsSplit (d1 ++ d2) q := by
  cases q <;> simp [logsSplit, List.filter_append]

theorem iteLog_eq (q : Bool) (m : List (String × Nat)) (L : List Msg)
    (tr : List Ev) (msg : Msg) (h : msgKept msg = false) :
    (if q then (⟨m, L, tr⟩ : RState) else addLog ⟨m, L, tr⟩ msg)
      = ⟨m, L ++ logsSplit [msg] q, tr⟩ := by
  cases q <;> simp [addLog, logsSplit, h]

theorem unloadStep1_quiet (e : Env) (t : String) (m : List (String × Nat))
    (tr : List Ev) :
    ∃ m' tr' d, ∀ L q, unloadStep1 e t q ⟨m, L, tr⟩
      = ⟨m', L ++ logsSplit d q, tr'⟩ := by
  cases hlk : lookupMod m t with
  | none =>
      refine ⟨m, tr, [], fun L q => ?_⟩
      unfold unloadStep1
      rw [show (⟨m, L, tr⟩ : RState).sysModules = m from rfl, hlk]
      simp [logsSplit]
  | some h =>
      cases hu : e.unloadModule h with
      | true =>
          refine ⟨m, tr ++ [.unloadHook h true], [.calledUnloadModule t],
            fun L q => ?_⟩
          unfold unloadStep1
          rw [show (⟨m, L, tr⟩ : RState).sysModules = m from rfl, hlk]
          dsimp only
          rw [hu]
          cases q <;> simp [addEv, addLog, logsSplit, msgKept]
      | false =>
          refine ⟨m, tr ++ [.unloadHook h false], [.unloadModuleFailed t],
            fun L q => ?_⟩
          unfold unloadStep1
          rw [show (⟨m, L, tr⟩ : RState).sysModules = m from rfl, hlk]
          dsimp only
          rw [hu]
          cases q <;> simp [addEv, addLog, logsSplit, msgKept]

theorem removeStep_quiet (n : String) (m : List (String × Nat))
    (tr : List Ev) :
    ∃ m' tr' d, ∀ L q, removeStep q n ⟨m, L, tr⟩
      = ⟨m', L ++ logsSplit d q, tr'⟩ := by
  cases hlk : (lookupMod m n).isSome with
  | false =>
      refine ⟨m, tr, [], fun L q => ?_⟩
      unfold removeStep
      rw [show (⟨m, L, tr⟩ : RState).sysModules = m from rfl, hlk]
      simp [logsSplit]
  | true =>
      refine ⟨eraseMod m n, tr, [.unloadedModule n], fun L q => ?_⟩
      unfold removeStep
      rw [show (⟨m, L, tr⟩ : RState).sysModules = m from rfl, hlk]
      cases q <;> simp [addLog, logsSplit, msgKept, eraseMod]

theorem removeLoop_quiet (l : List String) :
    ∀ (m : List (String × Nat)) (tr : List Ev),
    ∃ m' tr' d, ∀ L q, removeLoop q l ⟨m, L, tr⟩
      = ⟨m', L ++ logsSplit d q, tr'⟩ := by
  induction l with
  | nil =>
      intro m tr
      refine ⟨m, tr, [], fun L q => ?_⟩
      simp [removeLoop, logsSplit]
  | cons n rest ih =>
      intro m tr
      obtain ⟨m1, tr1, d1, h1⟩ := removeStep_quiet n m tr
      obtain ⟨m2, tr2, d2, h2⟩ := ih m1 tr1
      refine ⟨m2, tr2, d1 ++ d2, fun L q => ?_⟩
      rw [removeLoop, h1, h2, ← logsSplit_append]

theorem invalidateCaches_quiet (e : Env) (m : List (String × Nat))
    (tr : List Ev) :
    ∃ m' tr' d, ∀ L q, invalidateCaches e ⟨m, L, tr⟩
      = ⟨m', L ++ logsSplit d q, tr'⟩ := by
  cases hi : e.invalidateOk with
  | true =>
      refine ⟨m, tr ++ [.invalidateEv true], [], fun L q => ?_⟩
      unfold invalidateCaches
      rw [hi]
      simp [addEv, logsSplit]
  | false =>
      refine ⟨m, tr ++ [.invalidateEv false], [.failedInvalidate], fun L q => ?_⟩
      unfold invalidateCaches
      rw [hi]
      cases q <;> simp [addEv, addLog, logsSplit, msgKept]

theorem unload_plugin_quiet (e : Env) (t : String) (m : List (String × Nat))
    (tr : List Ev) :
    ∃ m' tr' d, ∀ L q, unload_plugin e t q ⟨m, L, tr⟩
      = ⟨m', L ++ logsSplit d q, tr'⟩ := by
  obtain ⟨m1, tr1, d1, h1⟩ := unloadStep1_quiet e t m tr
  obtain ⟨m2, tr2, d2, h2⟩ := removeLoop_quiet (removalOrder m1 t) m1 tr1
  obtain ⟨m3, tr3, d3, h3⟩ := invalidateCaches_quiet e m2 tr2
  refine ⟨m3, tr3, d1 ++ d2 ++ d3, fun L q => ?_⟩
  unfold unload_plugin
  rw [h1]
  dsimp only
  rw [h2, h3, logsSplit_append, logsSplit_append, List.append_assoc]

theorem logsSplit_kept (msg : Msg) (h : msgKept msg = true) (q : Bool) :
    logsSplit [msg] q = [msg] := by
  cases q <;> simp [logsSplit, h]

theorem gather_quiet (e : Env) (pkg : String) (m : List (String × Nat))
    (tr : List Ev) :
    ∃ res dtr, ∀ L : List Msg,
      gather_package_modules e pkg ⟨m, L, tr⟩ = (res, ⟨m, L, tr ++ dtr⟩) := by
  unfold gather_package_modules
  cases hpp : e.packagesPath with
  | error u =>
      exact ⟨.ok (cacheSeed m pkg, sAdd [] pkg), [.pathsQuery false],
        fun L => by simp [addEv]⟩
  | ok p =>
      by_cases hp : p = ""
      · refine ⟨.ok (cacheSeed m pkg, sAdd [] pkg), [.pathsQuery true],
          fun L => ?_⟩
        simp [hp, addEv]
      · simp only [if_neg hp]
        cases hd : e.isDir (pathJoin p pkg) with
        | error u =>
            exact ⟨.error (), [.pathsQuery true, .isDirEv (pathJoin p pkg)],
              fun L => by simp [addEv]⟩
        | ok b =>
            cases b with
            | false =>
                exact ⟨.ok (cacheSeed m pkg, sAdd [] pkg),
                  [.pathsQuery true, .isDirEv (pathJoin p pkg)],
                  fun L => by simp [addEv]⟩
            | true =>
                cases hw : e.walk (pathJoin p pkg) with
                | error u =>
                    exact ⟨.error (), [.pathsQuery true,
                      .isDirEv (pathJoin p pkg), .walkEv (pathJoin p pkg)],
                      fun L => by simp [addEv]⟩
                | ok fs =>
                    rcases hsc : scanLoop fs (cacheSeed m pkg, []) with ⟨A, P⟩
                    refine ⟨.ok (A, sAdd P pkg), [.pathsQuery true,
                      .isDirEv (pathJoin p pkg), .walkEv (pathJoin p pkg)],
                      fun L => ?_⟩
                    simp [addEv, hsc]

theorem pluginUnloadLoop_quiet (e : Env) (l : List String) :
    ∀ (m : List (String × Nat)) (tr : List Ev),
    ∃ m' tr' d, ∀ L q, pluginUnloadLoop e q l ⟨m, L, tr⟩
      = ⟨m', L ++ logsSplit d q, tr'⟩ := by
  induction l with
  | nil =>
      intro m tr
      refine ⟨m, tr, [], fun L q => ?_⟩
      simp [pluginUnloadLoop, logsSplit]
  | cons p rest ih =>
      intro m tr
      cases hlk : lookupMod m p with
      | none =>
          obtain ⟨m2, tr2, d2, h2⟩ := ih m tr
          refine ⟨m2, tr2, d2, fun L q => ?_⟩
          dsimp only [pluginUnloadLoop]
          rw [hlk]
          exact h2 L q
      | some h =>
          cases hu : e.unloadModule h with
          | true =>
              obtain ⟨m2, tr2, d2, h2⟩ := ih m (tr ++ [.unloadHook h true])
              refine ⟨m2, tr2, .calledUnloadModule p :: d2, fun L q => ?_⟩
              dsimp only [pluginUnloadLoop]
              rw [hlk]
              dsimp only
              rw [hu]
              simp only [addEv, if_true]
              rw [iteLog_eq q m L (tr ++ [Ev.unloadHook h true])
                  (Msg.calledUnloadModule p) rfl,
                h2, logsSplit_append]
              rfl
          | false =>
              obtain ⟨m2, tr2, d2, h2⟩ := ih m (tr ++ [.unloadHook h false])
              refine ⟨m2, tr2, .unloadModuleFailed p :: d2, fun L q => ?_⟩
              dsimp only [pluginUnloadLoop]
              rw [hlk]
              dsimp only
              rw [hu]
              simp only [addEv, addLog, Bool.false_eq_true, if_false]
              rw [← logsSplit_kept (.unloadModuleFailed p) rfl q, h2,
                logsSplit_append]
              rfl

theorem importLoop_quiet (e : Env) (l : List String) :
    ∀ (acc : Bool) (m : List (String × Nat)) (tr : List Ev),
    ∃ b m' tr' d, ∀ L q, importLoop e q l acc ⟨m, L, tr⟩
      = (b, ⟨m', L ++ logsSplit d q, tr'⟩) := by
  induction l with
  | nil =>
      intro acc m tr
      refine ⟨acc, m, tr, [], fun L q => ?_⟩
      simp [importLoop, logsSplit]
  | cons n rest ih =>
      intro acc m tr
      cases hlk : lookupMod m n with
      | some v =>
          obtain ⟨b, m2, tr2, d2, h2⟩ := ih true m (tr ++ [Ev.importEv n true])
          refine ⟨b, m2, tr2, Msg.importing n :: d2, fun L q => ?_⟩
          dsimp only [importLoop]
          rw [iteLog_eq q m L tr (Msg.importing n) rfl]
          dsimp only
          rw [hlk]
          simp only [addEv]
          rw [h2, logsSplit_append]
          rfl
      | none =>
          cases him : e.importMod n with
          | some v =>
              obtain ⟨b, m2, tr2, d2, h2⟩ :=
                ih true (insertMod m n v) (tr ++ [Ev.importEv n true])
              refine ⟨b, m2, tr2, Msg.importing n :: d2, fun L q => ?_⟩
              dsimp only [importLoop]
              rw [iteLog_eq q m L tr (Msg.importing n) rfl]
              dsimp only
              rw [hlk, him]
              simp only [addEv]
              rw [h2, logsSplit_append]
              rfl
          | none =>
              obtain ⟨b, m2, tr2, d2, h2⟩ :=
                ih acc m (tr ++ [Ev.importEv n false])
              refine ⟨b, m2, tr2,
                Msg.importing n :: Msg.importFailed n :: d2, fun L q => ?_⟩
              dsimp only [importLoop]
              rw [iteLog_eq q m L tr (Msg.importing n) rfl]
              dsimp only
              rw [hlk, him]
              simp only [addEv, addLog]
              rw [← logsSplit_kept (Msg.importFailed n) rfl q, h2,
                logsSplit_append, logsSplit_append]
              rfl

theorem pluginLoadLoop_quiet (e : Env) (l : List String) :
    ∀ (acc : Bool) (m : List (String × Nat)) (tr : List Ev),
    ∃ b m' tr' d, ∀ L q, pluginLoadLoop e q l acc ⟨m, L, tr⟩
      = (b, ⟨m', L ++ logsSplit d q, tr'⟩) := by
  induction l with
  | nil =>
      intro acc m tr
      refine ⟨acc, m, tr, [], fun L q => ?_⟩
      simp [pluginLoadLoop, logsSplit]
  | cons p rest ih =>
      intro acc m tr
      cases hlk : lookupMod m p with
      | some h =>
          cases hu : e.loadModule h with
          | true =>
              obtain ⟨b, m2, tr2, d2, h2⟩ :=
                ih true m (tr ++ [Ev.loadHook h true])
              refine ⟨b, m2, tr2, Msg.loadingPlugin p :: d2, fun L q => ?_⟩
              dsimp only [pluginLoadLoop]
              rw [hlk]
              dsimp only
              rw [iteLog_eq q m L tr (Msg.loadingPlugin p) rfl]
              try dsimp only
              rw [hu]
              simp only [addEv, if_true]
              rw [h2, logsSplit_append]
              rfl
          | false =>
              cases hr : e.reloadByName p with
              | true =>
                  obtain ⟨b, m2, tr2, d2, h2⟩ := ih true m
                    (tr ++ [Ev.loadHook h false] ++ [Ev.namedReload p true])
                  refine ⟨b, m2, tr2, Msg.loadingPlugin p ::
                    Msg.loadModuleFailedFallback p :: d2, fun L q => ?_⟩
                  dsimp only [pluginLoadLoop]
                  rw [hlk]
                  dsimp only
                  rw [iteLog_eq q m L tr (Msg.loadingPlugin p) rfl]
                  try dsimp only
                  rw [hu]
                  simp only [addEv, Bool.false_eq_true, if_false]
                  rw [iteLog_eq q m (L ++ logsSplit [Msg.loadingPlugin p] q)
                    (tr ++ [Ev.loadHook h false])
                    (Msg.loadModuleFailedFallback p) rfl]
                  dsimp only
                  rw [hr]
                  simp only [addEv, if_true]
                  rw [h2, logsSplit_append, logsSplit_append]
                  rfl
              | false =>
                  obtain ⟨b, m2, tr2, d2, h2⟩ := ih acc m
                    (tr ++ [Ev.loadHook h false] ++ [Ev.namedReload p false])
                  refine ⟨b, m2, tr2, Msg.loadingPlugin p ::
                    Msg.loadModuleFailedFallback p ::
                    Msg.reloadPluginFallbackFailed p :: d2, fun L q => ?_⟩
                  dsimp only [pluginLoadLoop]
                  rw [hlk]
                  dsimp only
                  rw [iteLog_eq q m L tr (Msg.loadingPlugin p) rfl]
                  try dsimp only
                  rw [hu]
                  simp only [addEv, Bool.false_eq_true, if_false]
                  rw [iteLog_eq q m (L ++ logsSplit [Msg.loadingPlugin p] q)
                    (tr ++ [Ev.loadHook h false])
                    (Msg.loadModuleFailedFallback p) rfl]
                  dsimp only
                  rw [hr]
                  simp only [addEv, addLog, Bool.false_eq_true, if_false]
                  rw [← logsSplit_kept (Msg.reloadPluginFallbackFailed p) rfl q,
                    h2, logsSplit_append, logsSplit_append, logsSplit_append]
                  rfl
      | none =>
          cases hr : e.reloadByName p with
          | true =>
              obtain ⟨b, m2, tr2, d2, h2⟩ :=
                ih true m (tr ++ [Ev.namedReload p true])
              refine ⟨b, m2, tr2, d2, fun L q => ?_⟩
              dsimp only [pluginLoadLoop]
              rw [hlk]
              dsimp only
              rw [hr]
              simp only [addEv, if_true]
              rw [h2]
          | false =>
              obtain ⟨b, m2, tr2, d2, h2⟩ :=
                ih acc m (tr ++ [Ev.namedReload p false])
              refine ⟨b, m2, tr2, Msg.reloadPluginFailed p :: d2,
                fun L q => ?_⟩
              dsimp only [pluginLoadLoop]
              rw [hlk]
              dsimp only
              rw [hr]
              simp only [addEv, addLog, Bool.false_eq_true, if_false]
              rw [← logsSplit_kept (Msg.reloadPluginFailed p) rfl q, h2,
                logsSplit_append]
              rfl

theorem reload_plugin_quiet (e : Env) (t : String) (m : List (String × Nat))
    (tr : List Ev) :
    ∃ b m' tr' d, ∀ L q, reload_plugin e t q ⟨m, L, tr⟩
      = (b, ⟨m', L ++ logsSplit d q, tr'⟩) := by
  obtain ⟨res, dtr, hg⟩ := gather_quiet e t m tr
  cases res with
  | error u =>
      refine ⟨false, m, tr ++ dtr, [Msg.gatherFailed t], fun L q => ?_⟩
      unfold reload_plugin
      rw [hg L]
      dsimp only
      simp only [addLog]
      rw [logsSplit_kept (Msg.gatherFailed t) rfl q]
  | ok pr =>
      rcases pr with ⟨allM, plugM⟩
      obtain ⟨m1, tr1, d1, h1⟩ :=
        pluginUnloadLoop_quiet e (bsort strLe plugM) m (tr ++ dtr)
      obtain ⟨m2, tr2, d2, h2⟩ := removeLoop_quiet (removalOrderR m1 allM) m1 tr1
      obtain ⟨m3, tr3, d3, h3⟩ := invalidateCaches_quiet e m2 tr2
      obtain ⟨b4, m4, tr4, d4, h4⟩ :=
        importLoop_quiet e (bsort splitKeyLe allM) false m3 tr3
      obtain ⟨b5, m5, tr5, d5, h5⟩ :=
        pluginLoadLoop_quiet e (bsort strLe plugM) b4 m4 tr4
      refine ⟨b5, m5, tr5, Msg.foundModules t allM.length plugM.length
        :: (d1 ++ d2 ++ d3 ++ d4 ++ d5), fun L q => ?_⟩
      unfold reload_plugin
      rw [hg L]
      dsimp only
      rw [iteLog_eq q m L (tr ++ dtr)
        (Msg.foundModules t allM.length plugM.length) rfl, h1]
      dsimp only
      rw [h2, h3, h4]
      dsimp only
      rw [h5, logsSplit_append, logsSplit_append, logsSplit_append,
        logsSplit_append, logsSplit_append]
      simp [List.append_assoc]

/-- C10: the quiet flag suppresses only progress messages: a quiet run of
`unload_plugin` or `reload_plugin` produces the same cache, the same host-call
trace and the same result as the non-quiet run, and its log output is exactly
the non-quiet run's new log output restricted to the unconditionally-emitted
messages — which include the teardown-hook failure, cache-entry removal
failure, cache-invalidation failure, gather failure and per-module import
failure, while the success/progress messages are omitted. -/
theorem c10_quiet_suppresses_only_progress (e : Env) (target : String)
    (s : RState) :
    ((unload_plugin e target true s).sysModules
        = (unload_plugin e target false s).sysModules ∧
      (unload_plugin e target true s).trace
        = (unload_plugin e target false s).trace ∧
      (unload_plugin e target true s).logs
        = s.logs ++ ((unload_plugin e target false s).logs.drop
            s.logs.length).filter msgKept) ∧
    ((reload_plugin e target true s).1 = (reload_plugin e target false s).1 ∧
      (reload_plugin e target true s).2.sysModules
        = (reload_plugin e target false s).2.sysModules ∧
      (reload_plugin e target true s).2.trace
        = (reload_plugin e target false s).2.trace ∧
      (reload_plugin e target true s).2.logs
        = s.logs ++ ((reload_plugin e target false s).2.logs.drop
            s.logs.length).filter msgKept) ∧
    (msgKept (.unloadModuleFailed target) = true ∧
      msgKept (.failedUnload target) = true ∧
      msgKept (.failedRemove target) = true ∧
      msgKept .failedInvalidate = true ∧
      msgKept (.gatherFailed target) = true ∧
      msgKept (.importFailed target) = true) ∧
    (msgKept (.calledUnloadModule target) = false ∧
      msgKept (.unloadedModule target) = false ∧
      msgKept (.foundModules target 0 0) = false ∧
      msgKept (.importing target) = false ∧
      msgKept (.loadingPlugin target) = false) := by
  obtain ⟨m, L, tr⟩ := s
  obtain ⟨m', tr', d, hu⟩ := unload_plugin_quiet e target m tr
  obtain ⟨b, m2, tr2, d2, hr⟩ := reload_plugin_quiet e target m tr
  refine ⟨⟨?_, ?_, ?_⟩, ⟨?_, ?_, ?_, ?_⟩,
    ⟨rfl, rfl, rfl, rfl, rfl, rfl⟩, ⟨rfl, rfl, rfl, rfl, rfl⟩⟩
  · simp [hu, logsSplit]
  · simp [hu, logsSplit]
  · simp [hu, logsSplit, List.drop_left]
  · simp [hr, logsSplit]
  · simp [hr, logsSplit]
  · simp [hr, logsSplit]
  · simp [hr, logsSplit, List.drop_left]
